/-
Verification of the knowledge-base ingest-and-retrieve pipeline and its MCP
server front end.  The pipeline stages (RetrievalRanker, ChunkAssembler,
Normalizer, RetryPolicy, IngestCoordinator, Crawler) are modelled from the
specification because their implementation modules (server.py, tools/,
docling/, utils/) are not part of the checked-in sources; the HTTP session
handling and the fetch-weather tool are embedded from src/server.ts.
-/
import Mathlib

/-! ## RetrievalRanker -/

/-- Modelled from the spec: a RankedContext as produced per query — chunk text
plus a similarity score in [0,1], modelled as a rational number.  The
implementation module for RetrievalRanker is missing from the sources. -/
structure RankedContext where
  text : String
  score : ℚ
  deriving DecidableEq

/-- Modelled from the spec: descending comparison on similarity scores, used to
take the top matchCount by descending score. -/
def scoreLE (a b : RankedContext) : Bool :=
  decide (b.score ≤ a.score)

/-- Insert a candidate into a descending-sorted list, after every element with
a score greater than or equal to its own, so that equal scores keep their
insertion order (stable tie-break). -/
def insertRanked (x : RankedContext) : List RankedContext → List RankedContext
  | [] => [x]
  | y :: ys => if scoreLE y x then y :: insertRanked x ys else x :: y :: ys

/-- Stable sort by descending score: candidates are inserted in store order,
so candidates with equal scores stay in original store order. -/
def sortRanked (l : List RankedContext) : List RankedContext :=
  l.foldl (fun acc x => insertRanked x acc) []

/-- Modelled from the spec: RetrievalRanker filtering and ranking — drop
candidates with score below matchThreshold, stable-sort the survivors by
descending score (ties keep original store order), and take the first
matchCount. -/
def rankCandidates (matchThreshold : ℚ) (matchCount : Nat)
    (cands : List RankedContext) : List RankedContext :=
  (sortRanked (cands.filter (fun c => decide (matchThreshold ≤ c.score)))).take
    matchCount

/-- Modelled from the spec: observable side effects of a query call, used to
state that a configuration error is raised before any I/O is performed. -/
inductive QueryEffect where
  | embedQuestion
  | vectorSearch
  deriving DecidableEq

/-- Modelled from the spec: the outcome of a RetrievalRanker.query call —
either a configuration error or the ranked context list. -/
inductive QueryOutcome where
  | configError (msg : String)
  | results (ctxs : List RankedContext)
  deriving DecidableEq

/-- Modelled from the spec: RetrievalRanker.query — validates matchThreshold
and matchCount at the boundary, rejecting out-of-range values with a
configuration error before the embedding call and the vector search happen;
otherwise it performs both effects and ranks the candidates the store
returned. -/
def queryRun (matchThreshold : ℚ) (matchCount : Int)
    (stored : List RankedContext) : QueryOutcome × List QueryEffect :=
  if matchThreshold < 0 ∨ 1 < matchThreshold then
    (.configError "configuration error: matchThreshold out of range", [])
  else if matchCount ≤ 0 then
    (.configError "configuration error: matchCount must be positive", [])
  else
    (.results (rankCandidates matchThreshold matchCount.toNat stored),
     [.embedQuestion, .vectorSearch])

/-- Concrete candidate set of the spec scenario: five candidates with scores
0.9, 0.8, 0.65, 0.75, 0.6 in store order. -/
def exampleCandidates : List RankedContext :=
  [⟨"c1", 9/10⟩, ⟨"c2", 8/10⟩, ⟨"c3", 65/100⟩, ⟨"c4", 75/100⟩, ⟨"c5", 6/10⟩]

/-! ## ChunkAssembler -/

/-- Modelled from the spec: an AnnotatedBlock — normalized text with its
heading path and page reference.  The Normalizer/ChunkAssembler modules are
missing from the sources. -/
structure AnnotatedBlock where
  text : String
  headingPath : List String
  page : Nat
  deriving DecidableEq

/-- Split a character list into maximal runs of non-space characters; the
accumulator carries the current word reversed. -/
def splitWordsAux (cur : List Char) : List Char → List (List Char)
  | [] => if cur.isEmpty then [] else [cur.reverse]
  | c :: cs =>
    if c = ' ' then
      if cur.isEmpty then splitWordsAux [] cs
      else cur.reverse :: splitWordsAux [] cs
    else splitWordsAux (c :: cur) cs

/-- Modelled from the spec: tokenization, abstracted as whitespace splitting
with one token per word (the real system delegates to the tokenizer of the
embedding model). -/
def tokenize (s : String) : List String :=
  (splitWordsAux [] s.data).map (fun cs => String.mk cs)

/-- Modelled from the spec: a Chunk — the retrieval unit assembled from
consecutive blocks, carrying its token list and heading path. -/
structure Chunk where
  tokens : List String
  headingPath : List String
  deriving DecidableEq

/-- Token count of a chunk. -/
def Chunk.tokenCount (c : Chunk) : Nat := c.tokens.length

/-- Word count of a chunk (one word per token under the abstract tokenizer). -/
def Chunk.wordCount (c : Chunk) : Nat := c.tokens.length

/-- Modelled from the spec: true when the second heading path equals the first
or is a descendant of it. -/
def pathOnOrBelow : List String → List String → Bool
  | [], _ => true
  | _ :: _, [] => false
  | a :: as, b :: bs => a == b && pathOnOrBelow as bs

/-- Modelled from the spec: hard-split a token list into consecutive pieces at
token boundaries, used only when a single block alone exceeds maxTokens. -/
def splitTokens (maxTokens : Nat) : List String → List (List String)
  | [] => []
  | w :: ws =>
    (w :: ws.take (maxTokens - 1)) :: splitTokens maxTokens (ws.drop (maxTokens - 1))
termination_by l => l.length
decreasing_by simp; omega

/-- Seed a fresh chunk from one block. -/
def chunkOfBlock (b : AnnotatedBlock) : Chunk :=
  { tokens := tokenize b.text, headingPath := b.headingPath }

/-- Merge one more block into the growing chunk. -/
def mergeChunk (c : Chunk) (b : AnnotatedBlock) : Chunk :=
  { tokens := c.tokens ++ tokenize b.text, headingPath := c.headingPath }

/-- Hard-split an oversized block into chunks of at most maxTokens tokens. -/
def hardSplit (maxTokens : Nat) (b : AnnotatedBlock) : List Chunk :=
  (splitTokens maxTokens (tokenize b.text)).map
    (fun ts => { tokens := ts, headingPath := b.headingPath })

/-- Modelled from the spec: the greedy merge loop of ChunkAssembler.assemble —
accumulate consecutive blocks into the current chunk while the heading path
stays on or below the path of the chunk and the token budget holds; otherwise close
the chunk and re-seed with the current block, hard-splitting a block that
alone exceeds maxTokens. -/
def assembleGo (maxTokens : Nat) : Option Chunk → List AnnotatedBlock → List Chunk
  | none, [] => []
  | some c, [] => [c]
  | none, b :: bs =>
    if (tokenize b.text).length ≤ maxTokens then
      assembleGo maxTokens (some (chunkOfBlock b)) bs
    else
      hardSplit maxTokens b ++ assembleGo maxTokens none bs
  | some c, b :: bs =>
    if pathOnOrBelow c.headingPath b.headingPath
        ∧ c.tokenCount + (tokenize b.text).length ≤ maxTokens then
      assembleGo maxTokens (some (mergeChunk c b)) bs
    else if (tokenize b.text).length ≤ maxTokens then
      c :: assembleGo maxTokens (some (chunkOfBlock b)) bs
    else
      c :: (hardSplit maxTokens b ++ assembleGo maxTokens none bs)

/-- Modelled from the spec: ChunkAssembler.assemble — greedy merge followed by
the post-merge filter dropping any chunk whose word count is below minWords
(dropped entirely, never merged into a neighbor). -/
def assemble (blocks : List AnnotatedBlock) (maxTokens minWords : Nat) : List Chunk :=
  (assembleGo maxTokens none blocks).filter (fun c => decide (minWords ≤ c.wordCount))

/-! ## Normalizer (table rewriting) -/

/-- Modelled from the spec: the statement generated for one non-key cell of a
keyed row. -/
def cellStatement (key colHeader value : String) : String :=
  key ++ ", " ++ colHeader ++ " = " ++ value

/-- Modelled from the spec: the fallback statement for a cell of a row without
an identifiable key column. -/
def flatStatement (colHeader value : String) : String :=
  colHeader ++ " = " ++ value

/-- Pair each cell with its column header, defaulting the header to the empty
string when the header row is shorter than the data row, so that no cell is
ever dropped by header misalignment. -/
def zipHeaders : List String → List String → List (String × String)
  | _, [] => []
  | [], v :: vs => ("", v) :: zipHeaders [] vs
  | h :: hs, v :: vs => (h, v) :: zipHeaders hs vs

/-- Keep only the pairs whose cell value is non-empty: empty cells are
skipped, not emitted as empty statements. -/
def filledCells (pairs : List (String × String)) : List (String × String) :=
  pairs.filter (fun p => !p.2.isEmpty)

/-- Modelled from the spec: the structured form of one data row — either a
keyed row (key value plus the non-empty non-key cells with their headers) or
the fallback flat form over all non-empty cells of the row. -/
inductive RowForm where
  | keyed (key : String) (pairs : List (String × String))
  | flat (pairs : List (String × String))
  deriving DecidableEq

/-- Modelled from the spec: classify a data row.  The key is the first cell
when it is non-empty and at least one other non-empty cell exists; otherwise
the row falls back to the flat form (this also preserves the key cell of a row
whose remaining cells are all empty). -/
def rowForm (header row : List String) : RowForm :=
  match row with
  | [] => .flat []
  | key :: rest =>
    if !key.isEmpty ∧ filledCells (zipHeaders (header.drop 1) rest) ≠ [] then
      .keyed key (filledCells (zipHeaders (header.drop 1) rest))
    else
      .flat (filledCells (zipHeaders header row))

/-- Render one row form as the text of its AnnotatedBlock: one statement per
non-key cell, joined into a single block per row; flat rows are joined by
commas as the fallback of the spec prescribes. -/
def renderRow : RowForm → String
  | .keyed key pairs =>
    String.intercalate "; " (pairs.map (fun p => cellStatement key p.1 p.2))
  | .flat pairs =>
    String.intercalate ", " (pairs.map (fun p => flatStatement p.1 p.2))

/-- Number of distinct cells whose value is referenced by the statements of
one row form: the key cell once (when used) plus one cell per statement. -/
def referencedCells : RowForm → Nat
  | .keyed _ pairs => 1 + pairs.length
  | .flat pairs => pairs.length

/-- The text of the single AnnotatedBlock generated for one data row. -/
def rowText (header row : List String) : String :=
  renderRow (rowForm header row)

/-- Modelled from the spec: Normalizer table rewriting — one AnnotatedBlock
per data row, inheriting the current heading-path snapshot and page. -/
def normalizeTable (header : List String) (rows : List (List String))
    (path : List String) (page : Nat) : List AnnotatedBlock :=
  rows.map (fun r => { text := rowText header r, headingPath := path, page := page })

/-- Number of non-empty cells in the data rows of a table. -/
def countFilledCells (rows : List (List String)) : Nat :=
  (rows.map (fun r => (r.filter (fun v => !v.isEmpty)).length)).sum

/-- Number of cell values referenced across all statements generated for a
the data rows of a table. -/
def tableReferencedCells (header : List String) (rows : List (List String)) : Nat :=
  (rows.map (fun r => referencedCells (rowForm header r))).sum

/-! ## RetryPolicy -/

/-- Modelled from the spec: the outcome the remote end produces for one fetch
attempt — success, a retryable status (HTTP 429/503 or a transport error), or
a terminal 4xx status. -/
inductive AttemptOutcome where
  | success
  | retryableStatus
  | terminalStatus
  deriving DecidableEq

/-- Modelled from the spec: how the fetch of a Source is recorded. -/
inductive FetchReport where
  | fetched
  | failed (reason : String)
  deriving DecidableEq

/-- Modelled from the spec: fetching one Source under the RetryPolicy.  The
ceiling bounds the total number of tries: with ceiling 2 only 2 tries are
allowed in total, and once they are exhausted the Source is recorded failed
with reason fetch-error. -/
def fetchWithRetry (ceiling : Nat) (attempts : List AttemptOutcome) : FetchReport :=
  match ceiling, attempts with
  | 0, _ => .failed "fetch-error"
  | _ + 1, [] => .failed "fetch-error"
  | n + 1, a :: rest =>
    match a with
    | .success => .fetched
    | .terminalStatus => .failed "fetch-error"
    | .retryableStatus => fetchWithRetry n rest

/-! ## IngestCoordinator -/

/-- Modelled from the spec: the pipeline stage at which one source failed. -/
inductive Stage where
  | crawl
  | normalize
  | assembleStage
  | embedStage
  | storeStage
  deriving DecidableEq

/-- Human-readable tag of a stage. -/
def Stage.tag : Stage → String
  | .crawl => "crawl"
  | .normalize => "normalize"
  | .assembleStage => "assemble"
  | .embedStage => "embed"
  | .storeStage => "store"

/-- Modelled from the spec: the run summary — successfully stored source
identifiers and failed ones with their reasons. -/
structure IngestResult where
  succeeded : List String
  failed : List (String × String)
  deriving DecidableEq

/-- A stage-tagged human-readable failure reason. -/
def taggedReason (st : Stage) (msg : String) : String :=
  st.tag ++ ": " ++ msg

/-- Modelled from the spec: IngestCoordinator.ingest — drives the pipeline
source by source; the per-source processing (crawl, normalize, assemble,
embed, store) is abstracted as a function returning either a stored chunk
count or the failing stage with a message.  A failure is caught, recorded with
a stage-tagged reason, and the loop continues with the next source. -/
def ingest (process : String → Except (Stage × String) Nat) :
    List String → IngestResult
  | [] => { succeeded := [], failed := [] }
  | s :: rest =>
    let r := ingest process rest
    match process s with
    | .ok _ => { r with succeeded := s :: r.succeeded }
    | .error (st, msg) => { r with failed := (s, taggedReason st msg) :: r.failed }

/-! ## Crawler -/

/-- Modelled from the spec: Source identifier normalization — lower-case the
identifier and strip one trailing slash. -/
def normalizeId (s : String) : String :=
  let lower := s.toLower
  if lower.endsWith "/" then lower.dropRight 1 else lower

/-- Modelled from the spec: the crawl state — the FIFO frontier, the set of
normalized identifiers already seen, and the log of enqueue events in order. -/
structure CrawlState where
  frontier : List String
  seen : List String
  enqueued : List String
  deriving DecidableEq

/-- Modelled from the spec: enqueue a candidate only if it passes the
admissibility filters (same-site, exclusion patterns, depth) and its
normalized identifier has not been seen; a successful enqueue records the
normalized identifier as seen. -/
def tryEnqueue (admissible : String → Bool) (st : CrawlState) (cand : String) :
    CrawlState :=
  if admissible cand && !(st.seen.contains (normalizeId cand)) then
    { frontier := st.frontier ++ [cand],
      seen := normalizeId cand :: st.seen,
      enqueued := st.enqueued ++ [cand] }
  else st

/-- Modelled from the spec: one crawl step — dequeue the next frontier entry,
fetch it, and enqueue the admissible unseen links extracted from it. -/
def crawlStep (links : String → List String) (admissible : String → Bool)
    (st : CrawlState) : CrawlState :=
  match st.frontier with
  | [] => st
  | u :: rest =>
    (links u).foldl (tryEnqueue admissible)
      { frontier := rest, seen := st.seen, enqueued := st.enqueued }

/-- Run the crawl loop for a bounded number of steps. -/
def crawlRun (links : String → List String) (admissible : String → Bool) :
    Nat → CrawlState → CrawlState
  | 0, st => st
  | n + 1, st => crawlRun links admissible n (crawlStep links admissible st)

/-- Seed the crawl state by enqueueing the seed sources through the same
dedup gate. -/
def initialState (admissible : String → Bool) (seeds : List String) : CrawlState :=
  seeds.foldl (tryEnqueue admissible) { frontier := [], seen := [], enqueued := [] }

/-- Modelled from the spec: a whole crawl run from seed sources. -/
def crawl (links : String → List String) (admissible : String → Bool)
    (fuel : Nat) (seeds : List String) : CrawlState :=
  crawlRun links admissible fuel (initialState admissible seeds)

/-! ## MCP server (embedded from src/server.ts) -/

/-- A POST /mcp request as the handler observes it: the value of the
mcp-session-id header if the header is present, and whether the body is an
initialize request. -/
structure McpPost where
  sessionHeader : Option String
  initRequest : Bool
  deriving DecidableEq

/-- The observable outcome of the POST /mcp handler: the request is handled on
an existing transport, handled on a newly created transport, or rejected with
an HTTP status and a JSON-RPC error code and message. -/
inductive PostOutcome where
  | handledExisting (sessionId : String)
  | handledNewSession (sessionId : String)
  | badRequest (status : Nat) (code : Int) (message : String)
  deriving DecidableEq

/-- JavaScript truthiness of the header value: undefined and the empty string
are both falsy. -/
def headerTruthy : Option String → Bool
  | none => false
  | some s => !s.isEmpty

/-- The POST /mcp handler of src/server.ts over the transports map (modelled
as the list of stored session ids).  Branch 1 reuses an existing transport
when the header is truthy and a key of the map; branch 2 creates a transport
for an initialize request with a falsy header, storing the freshly generated
session id; otherwise the handler responds 400 with JSON-RPC error -32000 and
leaves the map unchanged. -/
def handlePost (transports : List String) (req : McpPost) (freshId : String) :
    PostOutcome × List String :=
  if headerTruthy req.sessionHeader ∧ (req.sessionHeader.getD "") ∈ transports then
    (.handledExisting (req.sessionHeader.getD ""), transports)
  else if !headerTruthy req.sessionHeader ∧ req.initRequest then
    (.handledNewSession freshId, freshId :: transports)
  else
    (.badRequest 400 (-32000) "Bad Request: No valid session ID provided",
     transports)

/-- What the outbound weather fetch of the fetch-weather tool did: produced a
body text, or threw with a message (covering both the fetch call and the body
read). -/
inductive WeatherFetch where
  | body (text : String)
  | thrown (message : String)
  deriving DecidableEq

/-- One content item of a tool result. -/
structure ToolContent where
  kind : String
  text : String
  deriving DecidableEq

/-- A tool result as returned to the MCP layer. -/
structure ToolResult where
  content : List ToolContent
  deriving DecidableEq

/-- The fetch-weather tool handler of src/server.ts: on success it returns the
body text as the single content item; a thrown error is caught and rendered as
a normal result prefixed with the Weather API error marker. -/
def fetchWeatherHandler (outcome : WeatherFetch) : ToolResult :=
  match outcome with
  | .body t => { content := [{ kind := "text", text := t }] }
  | .thrown m => { content := [{ kind := "text", text := "Weather API error: " ++ m }] }

/-! ## Proof fixtures -/

/-- The dedup invariant of a crawl state: the normalized identifiers of the
enqueue log are pairwise distinct, and each of them is recorded as seen. -/
def crawlInv (st : CrawlState) : Prop :=
  (st.enqueued.map normalizeId).Nodup ∧
  ∀ e ∈ st.enqueued, normalizeId e ∈ st.seen

/-- A concrete per-source processing function used to instantiate the ingest
theorem: one source fails at the embed stage, every other source stores one
chunk. -/
def demoProcess : String → Except (Stage × String) Nat :=
  fun s => if s = "a" then .error (.embedStage, "boom") else .ok 1

/-- Sortedness by descending similarity score. -/
def rankedSorted (l : List RankedContext) : Prop :=
  l.Pairwise (fun a b => b.score ≤ a.score)

/-! ## Theorems -/

theorem filledCells_zipHeaders_length (hs cells : List String) :
    (filledCells (zipHeaders hs cells)).length
      = (cells.filter (fun v => !v.isEmpty)).length := by
  induction cells generalizing hs with
  | nil => cases hs <;> simp [zipHeaders, filledCells]
  | cons v vs ih =>
    cases hs with
    | nil =>
      simp only [zipHeaders, filledCells, List.filter_cons] at ih ⊢
      cases hv : v.isEmpty <;> simp [hv, ih]
    | cons h hs =>
      simp only [zipHeaders, filledCells, List.filter_cons] at ih ⊢
      cases hv : v.isEmpty <;> simp [hv, ih]

theorem referencedCells_rowForm (header row : List String) :
    referencedCells (rowForm header row)
      = (row.filter (fun v => !v.isEmpty)).length := by
  cases row with
  | nil => simp [rowForm, referencedCells]
  | cons key rest =>
    by_cases hcond : !key.isEmpty ∧ filledCells (zipHeaders (header.drop 1) rest) ≠ []
    · simp only [rowForm, if_pos hcond, referencedCells]
      rw [filledCells_zipHeaders_length]
      have hk : key.isEmpty = false := by
        rcases hcond with ⟨h1, _⟩
        simpa using h1
      simp [List.filter_cons, hk, Nat.add_comm]
    · simp only [rowForm, if_neg hcond, referencedCells]
      rw [filledCells_zipHeaders_length]

/-- Claim C4: for every table input, the number of non-empty cells equals the
number of cell values referenced across the generated table statements — no
non-empty cell is dropped, and empty cells are skipped rather than emitted as
empty statements. -/
theorem normalize_preserves_cell_content (header : List String)
    (rows : List (List String)) :
    countFilledCells rows = tableReferencedCells header rows := by
  unfold countFilledCells tableReferencedCells
  induction rows with
  | nil => rfl
  | cons r rs ih =>
    simp only [List.map_cons, List.sum_cons, ih, referencedCells_rowForm]

/-- Claim C3: each table data row normalizes to exactly one AnnotatedBlock
whose text is the generated statements of the row, and the 1-row scenario table
normalizes to the block text given in the spec. -/
theorem normalizeTable_one_block_per_row (header : List String)
    (rows : List (List String)) (path : List String) (page : Nat) :
    (normalizeTable header rows path page).length = rows.length ∧
    (normalizeTable header rows path page).map AnnotatedBlock.text
      = rows.map (rowText header) ∧
    normalizeTable ["Name", "Role"] [["John Smith", "Physiotherapist"]] [] 1
      = [{ text := "John Smith, Role = Physiotherapist", headingPath := [], page := 1 }] :=
  ⟨by simp [normalizeTable], by simp [normalizeTable], rfl⟩

/-- Claim C5: with retry ceiling 2, a source answering HTTP 429 twice and then
succeeding on the third attempt is still recorded failed with reason
fetch-error, because the ceiling allows only 2 tries in total. -/
theorem retry_ceiling_two_exhausted :
    fetchWithRetry 2 [.retryableStatus, .retryableStatus, .success]
      = .failed "fetch-error" := rfl

/-- Claim C9 counterexample: a POST whose mcp-session-id header is present but
empty (hence not a key of the empty transports map) together with an
initialize body is not rejected with 400; the handler creates a new session
because the empty string is falsy in JavaScript. -/
theorem post_empty_header_counterexample :
    ((some "" : Option String) ≠ none ∧ "" ∉ ([] : List String)) ∧
    handlePost [] { sessionHeader := some "", initRequest := true } "S1"
      ≠ (.badRequest 400 (-32000) "Bad Request: No valid session ID provided",
         []) := by decide

/-- Claim C9 (amended): for every POST whose mcp-session-id header is absent
or empty while the body is not an initialize request, or whose header is a
non-empty string that is not a key of the transports map, the handler responds
400 with JSON-RPC error code -32000 and the given message, and the transports
map is unchanged. -/
theorem post_invalid_session_rejected (transports : List String) (req : McpPost)
    (freshId : String)
    (h : ((req.sessionHeader = none ∨ req.sessionHeader = some "")
            ∧ req.initRequest = false)
         ∨ (∃ s, req.sessionHeader = some s ∧ s ≠ "" ∧ s ∉ transports)) :
    handlePost transports req freshId
      = (.badRequest 400 (-32000) "Bad Request: No valid session ID provided",
         transports) := by
  unfold handlePost
  rcases h with ⟨hh, hi⟩ | ⟨s, hs, hne, hmem⟩
  · rcases hh with h0 | h0 <;>
      simp [headerTruthy, h0, hi, show "".isEmpty = true from rfl]
  · rw [hs]
    simp [headerTruthy, hne, hmem, String.isEmpty_iff]

/-- Witness for the amended Claim C9 theorem at a concrete request. -/
theorem post_invalid_session_rejected_witness :
    handlePost [] { sessionHeader := none, initRequest := false } "S1"
      = (.badRequest 400 (-32000) "Bad Request: No valid session ID provided",
         []) :=
  post_invalid_session_rejected [] { sessionHeader := none, initRequest := false }
    "S1" (Or.inl ⟨Or.inl rfl, rfl⟩)

/-- Claim C10: the fetch-weather handler is total at its interface — a thrown
fetch or body-read error with message m yields a normal result whose single
content item is the Weather API error text followed by m, and a successful
fetch yields the body text as the single content item. -/
theorem fetch_weather_handler_total (m b : String) :
    fetchWeatherHandler (.thrown m)
      = { content := [{ kind := "text", text := "Weather API error: " ++ m }] }
    ∧ fetchWeatherHandler (.body b)
      = { content := [{ kind := "text", text := b }] } :=
  ⟨rfl, rfl⟩

theorem tryEnqueue_inv (adm : String → Bool) (st : CrawlState) (c : String)
    (h : crawlInv st) : crawlInv (tryEnqueue adm st c) := by
  unfold tryEnqueue
  split
  · rename_i hcond
    obtain ⟨hnd, hseen⟩ := h
    have hnotseen : normalizeId c ∉ st.seen := by
      have := (Bool.and_eq_true _ _).mp hcond |>.2
      simpa using this
    constructor
    · simp only [List.map_append, List.map_cons, List.map_nil]
      rw [List.nodup_append]
      refine ⟨hnd, List.nodup_singleton _, ?_⟩
      intro x hx hx1
      simp only [List.mem_singleton] at hx1
      subst hx1
      obtain ⟨e, he, hne⟩ := List.mem_map.mp hx
      exact hnotseen (hne ▸ hseen e he)
    · intro e he
      simp only [List.mem_append, List.mem_singleton] at he
      rcases he with he | he
      · exact List.mem_cons_of_mem _ (hseen e he)
      · subst he; exact List.mem_cons_self _ _
  · exact h

theorem foldl_tryEnqueue_inv (adm : String → Bool) (cands : List String) :
    ∀ st, crawlInv st → crawlInv (cands.foldl (tryEnqueue adm) st) := by
  induction cands with
  | nil => intro st h; exact h
  | cons c cs ih => intro st h; exact ih _ (tryEnqueue_inv adm st c h)

theorem crawlStep_inv (links : String → List String) (adm : String → Bool)
    (st : CrawlState) (h : crawlInv st) : crawlInv (crawlStep links adm st) := by
  unfold crawlStep
  cases hf : st.frontier with
  | nil => exact h
  | cons u rest => exact foldl_tryEnqueue_inv adm (links u) _ ⟨h.1, h.2⟩

theorem crawlRun_inv (links : String → List String) (adm : String → Bool) :
    ∀ (fuel : Nat) (st : CrawlState), crawlInv st →
      crawlInv (crawlRun links adm fuel st) := by
  intro fuel
  induction fuel with
  | zero => intro st h; exact h
  | succ n ih => intro st h; exact ih _ (crawlStep_inv links adm st h)

/-- Claim C7: during a single crawl run the normalized identifiers of all
enqueue events on the frontier are pairwise distinct — the crawler never
enqueues the same normalized Source identifier twice. -/
theorem crawl_enqueues_distinct (links : String → List String)
    (admissible : String → Bool) (fuel : Nat) (seeds : List String) :
    ((crawl links admissible fuel seeds).enqueued.map normalizeId).Nodup := by
  have hinit : crawlInv (initialState admissible seeds) :=
    foldl_tryEnqueue_inv admissible seeds _ ⟨List.nodup_nil, by simp⟩
  exact (crawlRun_inv links admissible fuel _ hinit).1

/-- Claim C6: every source of an ingest run is processed — a source failing at
any stage is caught and recorded in the failed list with a stage-tagged
reason, a succeeding source lands in the succeeded list, and together they
account for the whole run (no failure aborts it). -/
theorem ingest_isolates_failures (process : String → Except (Stage × String) Nat)
    (sources : List String) :
    ((ingest process sources).succeeded.length
        + (ingest process sources).failed.length = sources.length) ∧
    (∀ s ∈ sources,
      (∃ n, process s = .ok n ∧ s ∈ (ingest process sources).succeeded) ∨
      (∃ st msg, process s = .error (st, msg)
        ∧ (s, taggedReason st msg) ∈ (ingest process sources).failed)) := by
  induction sources with
  | nil => exact ⟨rfl, by simp⟩
  | cons a rest ih =>
    obtain ⟨ihlen, ihmem⟩ := ih
    constructor
    · cases hp : process a with
      | ok n => simp [ingest, hp]; omega
      | error e => simp [ingest, hp]; omega
    · intro s hs
      rcases List.mem_cons.mp hs with hs | hs
      · subst hs
        cases hp : process s with
        | ok n =>
          exact Or.inl ⟨n, rfl, by simp [ingest, hp]⟩
        | error e =>
          obtain ⟨st, msg⟩ := e
          exact Or.inr ⟨st, msg, rfl, by simp [ingest, hp]⟩
      · rcases ihmem s hs with ⟨n, hn, hmem⟩ | ⟨st, msg, he, hmem⟩
        · refine Or.inl ⟨n, hn, ?_⟩
          cases hp : process a <;> simp [ingest, hp, hmem]
        · refine Or.inr ⟨st, msg, he, ?_⟩
          cases hp : process a <;> simp [ingest, hp, hmem]

/-- Witness for the ingest theorem: in a run over sources a and b where a
fails at the embed stage, b is recorded as succeeded. -/
theorem ingest_isolates_failures_witness :
    (∃ n, demoProcess "b" = .ok n
       ∧ "b" ∈ (ingest demoProcess ["a", "b"]).succeeded) ∨
    (∃ st msg, demoProcess "b" = .error (st, msg)
       ∧ ("b", taggedReason st msg) ∈ (ingest demoProcess ["a", "b"]).failed) :=
  (ingest_isolates_failures demoProcess ["a", "b"]).2 "b" (by decide)

theorem splitTokens_sizes (m : Nat) (hm : 0 < m) :
    ∀ (l : List String) (p : List String), p ∈ splitTokens m l → p.length ≤ m
  | [], p, hp => by simp [splitTokens] at hp
  | w :: ws, p, hp => by
    rw [splitTokens] at hp
    rcases List.mem_cons.mp hp with h1 | h2
    · subst h1
      simp only [List.length_cons, List.length_take]
      omega
    · exact splitTokens_sizes m hm (ws.drop (m - 1)) p h2
termination_by l => l.length
decreasing_by simp; omega

theorem assembleGo_tokenCount (maxT : Nat) (hm : 0 < maxT) :
    ∀ (bs : List AnnotatedBlock) (cur : Option Chunk),
      (∀ c0, cur = some c0 → c0.tokenCount ≤ maxT) →
      ∀ c ∈ assembleGo maxT cur bs, c.tokenCount ≤ maxT := by
  intro bs
  induction bs with
  | nil =>
    intro cur hcur c hc
    cases cur with
    | none => simp [assembleGo] at hc
    | some c0 =>
      simp only [assembleGo, List.mem_singleton] at hc
      subst hc
      exact hcur c rfl
  | cons b bs ih =>
    intro cur hcur c hc
    cases cur with
    | none =>
      by_cases hb : (tokenize b.text).length ≤ maxT
      · rw [assembleGo, if_pos hb] at hc
        refine ih _ ?_ c hc
        intro c0 h0
        injection h0 with h0
        subst h0
        simpa [chunkOfBlock, Chunk.tokenCount] using hb
      · rw [assembleGo, if_neg hb] at hc
        rcases List.mem_append.mp hc with h1 | h2
        · obtain ⟨ts, hts, rfl⟩ := List.mem_map.mp (by simpa [hardSplit] using h1)
          simpa [Chunk.tokenCount] using splitTokens_sizes maxT hm _ ts hts
        · exact ih none (by simp) c h2
    | some cu =>
      by_cases hc1 : pathOnOrBelow cu.headingPath b.headingPath
          ∧ cu.tokenCount + (tokenize b.text).length ≤ maxT
      · rw [assembleGo, if_pos hc1] at hc
        refine ih _ ?_ c hc
        intro c0 h0
        injection h0 with h0
        subst h0
        simp only [mergeChunk, Chunk.tokenCount, List.length_append]
        exact le_trans (Nat.add_le_add_right (Nat.le_refl _) _) hc1.2
      · rw [assembleGo, if_neg hc1] at hc
        by_cases hb : (tokenize b.text).length ≤ maxT
        · rw [if_pos hb] at hc
          rcases List.mem_cons.mp hc with h1 | h2
          · subst h1; exact hcur c rfl
          · refine ih _ ?_ c h2
            intro c0 h0
            injection h0 with h0
            subst h0
            simpa [chunkOfBlock, Chunk.tokenCount] using hb
        · rw [if_neg hb] at hc
          rcases List.mem_cons.mp hc with h1 | h2
          · subst h1; exact hcur c rfl
          · rcases List.mem_append.mp h2 with h3 | h4
            · obtain ⟨ts, hts, rfl⟩ := List.mem_map.mp (by simpa [hardSplit] using h3)
              simpa [Chunk.tokenCount] using splitTokens_sizes maxT hm _ ts hts
            · exact ih none (by simp) c h4

/-- Claim C2: every chunk assembled from an ordered block sequence respects
both bounds — token count at most maxTokens and word count at least minWords;
a chunk violating either bound is never present in the output. -/
theorem assemble_respects_bounds (blocks : List AnnotatedBlock)
    (maxTokens minWords : Nat) (hm : 0 < maxTokens) :
    ∀ c ∈ assemble blocks maxTokens minWords,
      c.tokenCount ≤ maxTokens ∧ minWords ≤ c.wordCount := by
  intro c hc
  have h1 := List.mem_of_mem_filter hc
  have h2 := List.of_mem_filter hc
  exact ⟨assembleGo_tokenCount maxTokens hm blocks none (by simp) c h1,
    by simpa using h2⟩

/-- Witness for the assembler bound theorem at a concrete block sequence. -/
theorem assemble_respects_bounds_witness :
    ({ tokens := ["hello", "world", "foo"], headingPath := ["A"] } : Chunk).tokenCount ≤ 5
      ∧ 2 ≤ ({ tokens := ["hello", "world", "foo"], headingPath := ["A"] } : Chunk).wordCount :=
  assemble_respects_bounds
    [{ text := "hello world foo", headingPath := ["A"], page := 1 }] 5 2
    (by decide) _ (by decide)

theorem mem_insertRanked {a x : RankedContext} {l : List RankedContext} :
    a ∈ insertRanked x l ↔ a = x ∨ a ∈ l := by
  induction l with
  | nil => simp [insertRanked]
  | cons y ys ih =>
    by_cases h : scoreLE y x
    · simp only [insertRanked, if_pos h, List.mem_cons, ih]
      tauto
    · simp [insertRanked, if_neg h, List.mem_cons]

theorem insertRanked_sorted {x : RankedContext} {l : List RankedContext}
    (hl : rankedSorted l) : rankedSorted (insertRanked x l) := by
  induction l with
  | nil => simp [insertRanked, rankedSorted]
  | cons y ys ih =>
    obtain ⟨hy, hys⟩ := List.pairwise_cons.mp hl
    by_cases h : scoreLE y x
    · have hxy : x.score ≤ y.score := by simpa [scoreLE] using h
      simp only [insertRanked, if_pos h]
      rw [rankedSorted, List.pairwise_cons]
      refine ⟨?_, ih hys⟩
      intro z hz
      rcases mem_insertRanked.mp hz with rfl | hz
      · exact hxy
      · exact hy z hz
    · have hxy : y.score ≤ x.score := by
        have : ¬x.score ≤ y.score := by simpa [scoreLE] using h
        exact le_of_lt (lt_of_not_le this)
      simp only [insertRanked, if_neg h]
      rw [rankedSorted, List.pairwise_cons]
      refine ⟨?_, hl⟩
      intro z hz
      rcases List.mem_cons.mp hz with rfl | hz
      · exact hxy
      · exact le_trans (hy z hz) hxy

theorem filter_insertRanked (s : ℚ) {x : RankedContext} {l : List RankedContext}
    (hl : rankedSorted l) :
    (insertRanked x l).filter (fun c => decide (c.score = s))
      = if x.score = s then
          l.filter (fun c => decide (c.score = s)) ++ [x]
        else l.filter (fun c => decide (c.score = s)) := by
  induction l with
  | nil =>
    simp only [insertRanked]
    by_cases hx : x.score = s <;> simp [hx]
  | cons y ys ih =>
    obtain ⟨hy, hys⟩ := List.pairwise_cons.mp hl
    by_cases h : scoreLE y x
    · simp only [insertRanked, if_pos h, List.filter_cons]
      rw [ih hys]
      by_cases hx : x.score = s <;> by_cases hyv : y.score = s <;>
        simp [hx, hyv]
    · have hlt : y.score < x.score := by
        have : ¬x.score ≤ y.score := by simpa [scoreLE] using h
        exact lt_of_not_le this
      simp only [insertRanked, if_neg h]
      by_cases hx : x.score = s
      · have hnil : (y :: ys).filter (fun c => decide (c.score = s)) = [] := by
          rw [List.filter_eq_nil_iff]
          intro z hz
          have hzy : z.score ≤ y.score := by
            rcases List.mem_cons.mp hz with rfl | hz2
            · exact le_refl _
            · exact hy z hz2
          simp only [decide_eq_true_eq]
          intro hzs
          rw [hzs, ← hx] at hzy
          exact absurd hzy (not_le.mpr hlt)
        rw [if_pos hx, hnil, List.filter_cons_of_pos (by simp [hx]), hnil]
        rfl
      · rw [if_neg hx, List.filter_cons_of_neg (by simp [hx])]

theorem foldl_insertRanked_sorted :
    ∀ (l acc : List RankedContext), rankedSorted acc →
      rankedSorted (l.foldl (fun acc x => insertRanked x acc) acc) := by
  intro l
  induction l with
  | nil => intro acc h; exact h
  | cons x xs ih => intro acc h; exact ih _ (insertRanked_sorted h)

theorem mem_foldl_insertRanked :
    ∀ (l acc : List RankedContext) (a : RankedContext),
      a ∈ l.foldl (fun acc x => insertRanked x acc) acc ↔ a ∈ acc ∨ a ∈ l := by
  intro l
  induction l with
  | nil => intro acc a; simp
  | cons x xs ih =>
    intro acc a
    simp only [List.foldl_cons, List.mem_cons]
    rw [ih, mem_insertRanked]
    tauto

theorem filter_foldl_insertRanked (s : ℚ) :
    ∀ (l acc : List RankedContext), rankedSorted acc →
      (l.foldl (fun acc x => insertRanked x acc) acc).filter
          (fun c => decide (c.score = s))
        = acc.filter (fun c => decide (c.score = s))
            ++ l.filter (fun c => decide (c.score = s)) := by
  intro l
  induction l with
  | nil => intro acc h; simp
  | cons x xs ih =>
    intro acc h
    simp only [List.foldl_cons, List.filter_cons]
    rw [ih _ (insertRanked_sorted h), filter_insertRanked s h]
    by_cases hx : x.score = s <;> simp [hx]

theorem sortRanked_sorted (l : List RankedContext) : rankedSorted (sortRanked l) :=
  foldl_insertRanked_sorted l [] (by simp [rankedSorted])

theorem mem_sortRanked {a : RankedContext} {l : List RankedContext} :
    a ∈ sortRanked l ↔ a ∈ l := by
  rw [sortRanked, mem_foldl_insertRanked]
  simp

theorem filter_sortRanked (s : ℚ) (l : List RankedContext) :
    (sortRanked l).filter (fun c => decide (c.score = s))
      = l.filter (fun c => decide (c.score = s)) := by
  rw [sortRanked, filter_foldl_insertRanked s l [] (by simp [rankedSorted])]
  simp

/-- Claim C1: every context returned by the ranker has score at least
matchThreshold, at most matchCount contexts are returned, scores are
non-increasing, ties are broken by original store order (sorting preserves the
relative order of each equal-score class of the thresholded candidates), and
on the spec scenario the five candidates with scores 0.9, 0.8, 0.65, 0.75,
0.6 at threshold 0.7 and count 3 rank as 0.9, 0.8, 0.75. -/
theorem rank_candidates_spec (t : ℚ) (k : Nat) (cands : List RankedContext) :
    (∀ c ∈ rankCandidates t k cands, t ≤ c.score) ∧
    (rankCandidates t k cands).length ≤ k ∧
    (rankCandidates t k cands).Pairwise (fun a b => b.score ≤ a.score) ∧
    (∀ s : ℚ,
      (sortRanked (cands.filter (fun c => decide (t ≤ c.score)))).filter
          (fun c => decide (c.score = s))
        = (cands.filter (fun c => decide (t ≤ c.score))).filter
            (fun c => decide (c.score = s))) ∧
    rankCandidates (7/10) 3 exampleCandidates
      = [⟨"c1", 9/10⟩, ⟨"c2", 8/10⟩, ⟨"c4", 75/100⟩] := by
  refine ⟨?_, ?_, ?_, fun s => filter_sortRanked s _, ?_⟩
  · intro c hc
    have h1 : c ∈ sortRanked (cands.filter fun c => decide (t ≤ c.score)) :=
      (List.take_sublist k _).subset hc
    have h2 := List.of_mem_filter (mem_sortRanked.mp h1)
    simpa using h2
  · exact List.length_take_le k _
  · exact (sortRanked_sorted _).sublist (List.take_sublist k _)
  · norm_num [rankCandidates, sortRanked, insertRanked, scoreLE,
      exampleCandidates, List.filter, List.foldl, List.take]

/-- Witness for the ranker theorem: the first returned context of the spec
scenario clears the threshold. -/
theorem rank_candidates_spec_witness :
    (7/10 : ℚ) ≤ (⟨"c1", (9/10 : ℚ)⟩ : RankedContext).score :=
  (rank_candidates_spec (7/10) 3 exampleCandidates).1 ⟨"c1", 9/10⟩ (by
    rw [(rank_candidates_spec (7/10) 3 exampleCandidates).2.2.2.2]
    exact List.mem_cons_self _ _)

/-- Claim C8: queryRun rejects an out-of-range matchThreshold or a
non-positive matchCount with a configuration error before any effect is
performed, and performs the query otherwise. -/
theorem query_validates_at_boundary (t : ℚ) (k : Int)
    (stored : List RankedContext) :
    ((t < 0 ∨ 1 < t ∨ k ≤ 0) →
      ((∃ msg, (queryRun t k stored).1 = .configError msg)
        ∧ (queryRun t k stored).2 = [])) ∧
    ((0 ≤ t ∧ t ≤ 1 ∧ 0 < k) →
      queryRun t k stored
        = (.results (rankCandidates t k.toNat stored),
           [.embedQuestion, .vectorSearch])) := by
  constructor
  · intro h
    unfold queryRun
    by_cases h1 : t < 0 ∨ 1 < t
    · rw [if_pos h1]
      exact ⟨⟨_, rfl⟩, rfl⟩
    · rw [if_neg h1]
      have h2 : k ≤ 0 := by
        rcases h with h | h | h
        · exact absurd (Or.inl h) h1
        · exact absurd (Or.inr h) h1
        · exact h
      rw [if_pos h2]
      exact ⟨⟨_, rfl⟩, rfl⟩
  · intro ⟨h0, h1, hk⟩
    unfold queryRun
    rw [if_neg (by push_neg; exact ⟨h0, h1⟩), if_neg (by omega)]

/-- Witness for the boundary validation theorem: a threshold of 1.5 is
rejected with no effects performed. -/
theorem query_validates_at_boundary_witness :
    (∃ msg, (queryRun (3/2) 3 []).1 = .configError msg)
      ∧ (queryRun (3/2) 3 []).2 = [] :=
  (query_validates_at_boundary (3/2) 3 []).1
    (Or.inr (Or.inl (by norm_num)))
